import Mathlib

/-!
Shallow embedding of the obsidian-to-notion migration script
(src/obsidian_to_notion.py) and proofs about the claims of its
specification.  Python strings are modelled as `List Char` (or `String`
at the interface), Python dicts as association lists, the filesystem and
the two network collaborators (upload provider, document API) as
explicit function parameters.  Every regular-expression substitution of
the source is implemented as a deterministic left-to-right scanner with
an explicit fuel argument (fuel is always called with at least
length + 1, so it never runs out); the scanners reproduce the leftmost,
non-overlapping, first-alternative-wins semantics of the Python `re`
module on the concrete patterns used by the source.
-/

namespace ObsidianToNotion

/-- Whitespace characters recognised by the Python `str.strip` method
(ASCII range; the source never feeds other whitespace to `strip`). -/
def pyIsSpace (c : Char) : Bool :=
  c = ' ' || c = '\t' || c = '\n' || c = '\r' || c = '\x0b' || c = '\x0c'

/-- Python `str.strip()`: drop whitespace from both ends. -/
def pyStrip (s : List Char) : List Char :=
  ((s.dropWhile pyIsSpace).reverse.dropWhile pyIsSpace).reverse

/-- Python `str.rstrip(chars)` for a single character. -/
def pyRstripChar (ch : Char) (s : List Char) : List Char :=
  (s.reverse.dropWhile (fun c => c = ch)).reverse

/-- Python `str.lower()` restricted to ASCII, which is all the source
compares (language tags, URL schemes). -/
def pyLower (s : List Char) : List Char :=
  s.map Char.toLower

/-- Value of a hexadecimal digit, used by percent-decoding. -/
def hexVal (c : Char) : Option Nat :=
  if '0' ≤ c ∧ c ≤ '9' then some (c.toNat - 48)
  else if 'a' ≤ c ∧ c ≤ 'f' then some (c.toNat - 87)
  else if 'A' ≤ c ∧ c ≤ 'F' then some (c.toNat - 55)
  else none

/-- Python `urllib.parse.unquote`, modelled at the single-byte level:
a `%hh` pair with two hex digits becomes the character with that code,
anything else is copied verbatim (multi-byte UTF-8 sequences are out of
scope for the claims; all counterexamples and witnesses are ASCII). -/
def percentDecode : List Char → List Char
  | [] => []
  | '%' :: h1 :: h2 :: rest =>
    match hexVal h1, hexVal h2 with
    | some a, some b => Char.ofNat (16 * a + b) :: percentDecode rest
    | _, _ => '%' :: percentDecode (h1 :: h2 :: rest)
  | c :: rest => c :: percentDecode rest

/-- Characters allowed in a URL scheme after the first (alphabetic)
character, as accepted by `urllib.parse.urlparse`. -/
def schemeChar (c : Char) : Bool :=
  c.isAlphanum || c = '+' || c = '-' || c = '.'

/-- Split off a URL scheme the way `urllib.parse.urlparse` does: the
text before the first colon, provided it is nonempty, starts with a
letter and contains only scheme characters.  Returns the (lowercased)
scheme and the remainder after the colon. -/
def splitScheme (s : List Char) : Option (List Char × List Char) :=
  let p := s.takeWhile (fun c => ¬ c = ':')
  let r := s.dropWhile (fun c => ¬ c = ':')
  match r with
  | ':' :: rest =>
    match p with
    | [] => none
    | c :: cs =>
      if c.isAlpha ∧ (cs.all schemeChar) then some (pyLower (c :: cs), rest)
      else none
  | _ => none

/-- The netloc component that `urllib.parse.urlparse` extracts from the
text following `scheme:`: present only after `//`, extending to the
next `/`, `?` or `#`. -/
def splitNetloc (s : List Char) : List Char :=
  match s with
  | '/' :: '/' :: rest =>
    rest.takeWhile (fun c => ¬ (c = '/' ∨ c = '?' ∨ c = '#'))
  | _ => []

/-- Does `urlparse` raise a ValueError on this netloc?  Python raises
whenever the netloc contains a square bracket, unless the brackets
enclose a valid IPv6 or IPvFuture host; the callers in the source catch
the error and report an invalid URL.  Bracketed numeric hosts, which
Python would accept, are modelled as raising too — no claim involves
an IPv6 literal. -/
def netlocRaises (netloc : List Char) : Bool :=
  netloc.contains '[' || netloc.contains ']'

/-- Embedding of the `is_url` helper: `urlparse` succeeds with a truthy
scheme and netloc (a ValueError from bracket characters in the netloc
is caught and yields false). -/
def is_url (path : String) : Bool :=
  match splitScheme path.data with
  | some (_, rest) =>
    let netloc := splitNetloc rest
    ¬ netloc.isEmpty && ¬ netlocRaises netloc
  | none => false

/-- Embedding of `ObsidianToNotionConverter._is_valid_url`: nonempty
after stripping, trailing right parens removed, then `urlparse` must
produce a scheme in {http, https} and a nonempty netloc, with the
bracket ValueError caught as false. -/
def is_valid_url (url : String) : Bool :=
  if url.data.isEmpty ∨ (pyStrip url.data).isEmpty then false
  else
    let u := pyRstripChar ')' url.data
    match splitScheme u with
    | some (scheme, rest) =>
      let netloc := splitNetloc rest
      (¬ netloc.isEmpty) && (¬ netlocRaises netloc)
        && (scheme = "http".data || scheme = "https".data)
    | none => false

/-- One rich-text run of a Notion block, mirroring the dictionaries the
source builds: a content string, the four possible annotation flags
(absent annotation keys are `false`) and an optional link target. -/
structure RichTextRun where
  content : String
  bold : Bool := false
  italic : Bool := false
  strikethrough : Bool := false
  code : Bool := false
  link : Option String := none
deriving DecidableEq, Repr

/-- A run with no annotations and no link. -/
def plainRun (content : String) : RichTextRun :=
  { content := content }

/-- A Notion block as emitted by `ObsidianToNotionConverter`.  The
`heading` constructor keeps the `heading_1`/`heading_2`/`heading_3`
type string the source computes; `listItem` keeps the
`bulleted_list_item`/`numbered_list_item` type string; an image caption
is the (possibly empty) caption list, empty when the source omits the
key. -/
inductive Block where
  | heading (htype : String) (rich : List RichTextRun)
  | paragraph (rich : List RichTextRun)
  | code (rich : List RichTextRun) (language : String)
  | quote (rich : List RichTextRun)
  | listItem (ltype : String) (rich : List RichTextRun)
  | image (url : String) (caption : List RichTextRun)
  | divider
deriving DecidableEq, Repr

/-! ## Link Normalizer: `convert_obsidian_links` -/

/-- Scanner for the group of the embed / wiki-link patterns: one or more
characters other than `]`, followed by `]]`.  Returns the group and the
remainder after the two closing brackets. -/
def scanDoubleClose (s : List Char) : Option (List Char × List Char) :=
  let x := s.takeWhile (fun c => ¬ c = ']')
  match s.dropWhile (fun c => ¬ c = ']') with
  | ']' :: ']' :: rest => if x.isEmpty then none else some (x, rest)
  | _ => none

/-- Substitution pass for the pattern matching an Obsidian embed
(bang, double open bracket, one or more non-bracket characters, double
close bracket), replaced by standard image syntax with empty display
text.  Fuel-driven leftmost scan; fuel is called with length + 1. -/
def embedSubFuel : Nat → List Char → List Char
  | 0, s => s
  | _ + 1, [] => []
  | fuel + 1, c :: rest =>
    if c = '!' ∧ rest.take 2 = ['[', '['] then
      match scanDoubleClose (rest.drop 2) with
      | some (x, rest2) =>
        '!' :: '[' :: ']' :: '(' :: (x ++ ')' :: embedSubFuel fuel rest2)
      | none => c :: embedSubFuel fuel rest
    else c :: embedSubFuel fuel rest

/-- Replacement function for one wiki-link match, mirroring
`replace_wiki_link`: split the group on the first pipe into page name
and display text (equal when no pipe), then either a standard link via
the page map or the bare display text. -/
def replace_wiki_link (page_map : List (String × String)) (lc : List Char) :
    List Char :=
  let page_name := if '|' ∈ lc then lc.takeWhile (fun c => ¬ c = '|') else lc
  let display :=
    if '|' ∈ lc then (lc.dropWhile (fun c => ¬ c = '|')).drop 1 else lc
  match page_map.lookup (String.mk page_name) with
  | some url => '[' :: (display ++ ']' :: '(' :: (url.data ++ [')']))
  | none => display

/-- Substitution pass for the wiki-link pattern (double open bracket,
one or more non-bracket characters, double close bracket). -/
def wikiSubFuel (page_map : List (String × String)) :
    Nat → List Char → List Char
  | 0, s => s
  | _ + 1, [] => []
  | fuel + 1, c :: rest =>
    if c = '[' ∧ rest.take 1 = ['['] then
      match scanDoubleClose (rest.drop 1) with
      | some (lc, rest2) =>
        replace_wiki_link page_map lc ++ wikiSubFuel page_map fuel rest2
      | none => c :: wikiSubFuel page_map fuel rest
    else c :: wikiSubFuel page_map fuel rest

/-- Embedding of `convert_obsidian_links`: first the embed rewrite,
then the wiki-link rewrite.  The `vault_dir` argument of the source is
unused there and omitted here. -/
def convert_obsidian_links (content : String)
    (page_map : List (String × String)) : String :=
  let s1 := embedSubFuel (content.data.length + 1) content.data
  String.mk (wikiSubFuel page_map (s1.length + 1) s1)

/-! ## Inline Rich-Text Formatter: `_parse_rich_text` -/

/-- Decimal digits of a natural number (no leading zeros), used to
build placeholder tokens exactly as Python string formatting does. -/
def natDecimalAux : Nat → Nat → List Char → List Char
  | 0, _, acc => acc
  | fuel + 1, n, acc =>
    let d := Char.ofNat (48 + n % 10)
    if n < 10 then d :: acc else natDecimalAux fuel (n / 10) (d :: acc)

/-- Decimal representation of `n`. -/
def natDecimal (n : Nat) : List Char :=
  natDecimalAux (n + 1) n []

/-- The placeholder token the link-extraction pass substitutes for the
n-th link. -/
def placeholderChars (n : Nat) : List Char :=
  "__LINK_".data ++ natDecimal n ++ "__".data

/-- Truncation to the 2000-character Notion limit, the Python slice
`[:2000]`. -/
def take2000 (s : List Char) : String :=
  String.mk (s.take 2000)

/-- Scanner for the display group of the link pattern: one or more
characters other than `]`, then `](`.  Returns display text and the
remainder after the open paren. -/
def scanLinkDisplay (s : List Char) : Option (List Char × List Char) :=
  let d := s.takeWhile (fun c => ¬ c = ']')
  match s.dropWhile (fun c => ¬ c = ']') with
  | ']' :: '(' :: rest => if d.isEmpty then none else some (d, rest)
  | _ => none

/-- Scanner for the target group of the link pattern, reproducing the
alternation of the source regex: preferred branch is a nonempty run of
non-paren characters, a close paren, another run and the final close
paren (so the group itself contains one close paren); the fallback
branch is a nonempty non-paren run followed by the final close paren.
Returns the group and the remainder after the final close paren. -/
def scanLinkTarget (s : List Char) : Option (List Char × List Char) :=
  let a := s.takeWhile (fun c => ¬ c = ')')
  match s.dropWhile (fun c => ¬ c = ')') with
  | ')' :: r2 =>
    if a.isEmpty then none
    else
      let b := r2.takeWhile (fun c => ¬ c = ')')
      match r2.dropWhile (fun c => ¬ c = ')') with
      | ')' :: r4 => some (a ++ ')' :: b, r4)
      | _ => some (a, r2)
  | _ => none

/-- Link-extraction pass of `_parse_rich_text`: leftmost scan for the
link pattern, with the negative lookbehind excluding image syntax
tracked through the previous original character; every match is
replaced by a placeholder token and recorded in the side table keyed by
the digit string of its index. -/
def linkSubFuel : Nat → Option Char → Nat →
    List (List Char × (List Char × List Char)) → List Char →
    (List Char × List (List Char × (List Char × List Char)))
  | 0, _, _, m, s => (s, m)
  | fuel + 1, prev, counter, m, s =>
    match s with
    | [] => ([], m)
    | c :: rest =>
      if c = '[' ∧ ¬ prev = some '!' then
        match scanLinkDisplay rest with
        | some (d, rest1) =>
          match scanLinkTarget rest1 with
          | some (t, rest2) =>
            let r := linkSubFuel fuel (some ')') (counter + 1)
              (m ++ [(natDecimal counter, (d, t))]) rest2
            (placeholderChars counter ++ r.1, r.2)
          | none =>
            let r := linkSubFuel fuel (some c) counter m rest
            (c :: r.1, r.2)
        | none =>
          let r := linkSubFuel fuel (some c) counter m rest
          (c :: r.1, r.2)
      else
        let r := linkSubFuel fuel (some c) counter m rest
        (c :: r.1, r.2)

/-- The backtick character, written by code so that the source file
contains no literal backtick. -/
def btick : Char := Char.ofNat 96

/-- Scanner for a code span after an opening backtick: a nonempty run
of non-backtick characters, then the closing backtick. -/
def scanCodeSpan (s : List Char) : Option (List Char × List Char) :=
  let b := s.takeWhile (fun c => ¬ c = btick)
  if b.isEmpty then none
  else
    match s.dropWhile (fun c => ¬ c = btick) with
    | _ :: rest => some (b, rest)
    | [] => none

/-- The split on the code-span pattern performed by `_parse_rich_text`:
like Python `re.split` with a capturing group, it returns the
interleaving of non-match segments (possibly empty) and matched code
spans (with their backticks). -/
def backtickSplitFuel : Nat → List Char → List Char → List (List Char)
  | 0, acc, s => [acc.reverse ++ s]
  | fuel + 1, acc, s =>
    match s with
    | [] => [acc.reverse]
    | c :: rest =>
      if c = btick then
        match scanCodeSpan rest with
        | some (b, rest2) =>
          acc.reverse :: (btick :: b ++ [btick]) :: backtickSplitFuel fuel [] rest2
        | none => backtickSplitFuel fuel (c :: acc) rest
      else backtickSplitFuel fuel (c :: acc) rest

/-- Scanner for the strikethrough alternative: two tildes, a nonempty
run of non-tilde characters, two tildes. -/
def scanTilde (s : List Char) : Option (List Char × List Char) :=
  match s with
  | '~' :: '~' :: rest =>
    let a := rest.takeWhile (fun c => ¬ c = '~')
    if a.isEmpty then none
    else
      match rest.dropWhile (fun c => ¬ c = '~') with
      | '~' :: '~' :: rest2 => some (a, rest2)
      | _ => none
  | _ => none

/-- Scanner for the bold alternative: two stars, a nonempty run of
non-star characters, two stars. -/
def scanBold (s : List Char) : Option (List Char × List Char) :=
  match s with
  | '*' :: '*' :: rest =>
    let a := rest.takeWhile (fun c => ¬ c = '*')
    if a.isEmpty then none
    else
      match rest.dropWhile (fun c => ¬ c = '*') with
      | '*' :: '*' :: rest2 => some (a, rest2)
      | _ => none
  | _ => none

/-- Scanner for the italic alternative: one star, a nonempty run of
non-star characters, one star. -/
def scanItalic (s : List Char) : Option (List Char × List Char) :=
  match s with
  | '*' :: rest =>
    let a := rest.takeWhile (fun c => ¬ c = '*')
    if a.isEmpty then none
    else
      match rest.dropWhile (fun c => ¬ c = '*') with
      | '*' :: rest2 => some (a, rest2)
      | _ => none
  | _ => none

/-- Scanner for a placeholder token: the literal placeholder prefix, a
nonempty digit run, two underscores.  Returns the digit run. -/
def scanPlaceholder (s : List Char) : Option (List Char × List Char) :=
  match s with
  | '_' :: '_' :: 'L' :: 'I' :: 'N' :: 'K' :: '_' :: rest =>
    let d := rest.takeWhile Char.isDigit
    if d.isEmpty then none
    else
      match rest.dropWhile Char.isDigit with
      | '_' :: '_' :: rest2 => some (d, rest2)
      | _ => none
  | _ => none

/-- One alternative of the span pattern, in the alternation order of
the source regex. -/
inductive SpanTok where
  | strike (a : List Char)
  | bold (a : List Char)
  | italic (a : List Char)
  | placeholder (d : List Char)
deriving Repr

/-- First alternative of the span pattern matching at the current
position, with the remainder after the match. -/
def spanTokAt (s : List Char) : Option (SpanTok × List Char) :=
  match scanTilde s with
  | some (a, r) => some (.strike a, r)
  | none =>
    match scanBold s with
    | some (a, r) => some (.bold a, r)
    | none =>
      match scanItalic s with
      | some (a, r) => some (.italic a, r)
      | none =>
        match scanPlaceholder s with
        | some (d, r) => some (.placeholder d, r)
        | none => none

/-- Append the pending unmatched text as a plain run, when nonempty
(the Python code appends the gap before each match and the remainder
after the last one, both truncated). -/
def flushPlain (acc : List Char) (runs : List RichTextRun) : List RichTextRun :=
  if acc.isEmpty then runs else runs ++ [plainRun (take2000 acc.reverse)]

/-- The span pass over one non-code segment: leftmost scan for the span
pattern; matched spans become annotated runs, a placeholder is restored
from the side table (failed table lookup models the KeyError the source
would raise, hence `none`), gaps become plain runs.  `acc` holds the
pending unmatched characters in reverse. -/
def spanScanFuel (lm : List (List Char × (List Char × List Char))) :
    Nat → List Char → List RichTextRun → List Char → Option (List RichTextRun)
  | 0, acc, runs, _ => some (flushPlain acc runs)
  | _ + 1, acc, runs, [] => some (flushPlain acc runs)
  | fuel + 1, acc, runs, c :: rest =>
    match spanTokAt (c :: rest) with
    | some (tok, rest2) =>
      let base := flushPlain acc runs
      match tok with
      | .strike a =>
        spanScanFuel lm fuel [] (base ++ [{ content := take2000 a, strikethrough := true }]) rest2
      | .bold a =>
        spanScanFuel lm fuel [] (base ++ [{ content := take2000 a, bold := true }]) rest2
      | .italic a =>
        spanScanFuel lm fuel [] (base ++ [{ content := take2000 a, italic := true }]) rest2
      | .placeholder d =>
        match lm.lookup d with
        | none => none
        | some (lt, lu) =>
          let run :=
            if is_valid_url (String.mk lu) then
              { content := take2000 lt, link := some (String.mk lu) : RichTextRun }
            else
              plainRun (take2000 ('[' :: lt ++ ']' :: '(' :: lu ++ [')']))
          spanScanFuel lm fuel [] (base ++ [run]) rest2
    | none => spanScanFuel lm fuel (c :: acc) runs rest

/-- Is this segment of the backtick split a matched code span?  The
source tests that the part starts and ends with a backtick. -/
def isCodePart (p : List Char) : Bool :=
  p.head? = some btick && p.getLast? = some btick

/-- Runs contributed by one segment of the backtick split: empty parts
are skipped, code parts lose their backticks and become one code run
when nonempty, other parts go through the span pass. -/
def partRuns (lm : List (List Char × (List Char × List Char)))
    (p : List Char) : Option (List RichTextRun) :=
  if p.isEmpty then some []
  else if isCodePart p then
    let ct := (p.drop 1).dropLast
    if ct.isEmpty then some []
    else some [{ content := take2000 ct, code := true }]
  else spanScanFuel lm (p.length + 1) [] [] p

/-- Embedding of `ObsidianToNotionConverter._parse_rich_text`: link
extraction, backtick split, span pass, and the canonical single empty
run when nothing was produced.  `none` models the KeyError reachable
when the input itself contains a placeholder-shaped token that is not
in the side table. -/
def parse_rich_text (text : String) : Option (List RichTextRun) :=
  let r := linkSubFuel (text.data.length + 1) none 0 [] text.data
  let parts := backtickSplitFuel (r.1.length + 1) [] r.1
  match parts.mapM (partRuns r.2) with
  | none => none
  | some rss =>
    let runs := rss.flatten
    some (if runs.isEmpty then [plainRun ""] else runs)

/-! ## Block Builder: `ObsidianToNotionConverter` event handlers -/

/-- The fixed language lookup table of `_map_language`, in source
order. -/
def language_map : List (String × String) :=
  [("py", "python"), ("python", "python"),
   ("js", "javascript"), ("javascript", "javascript"),
   ("ts", "typescript"), ("typescript", "typescript"),
   ("java", "java"), ("c", "c"), ("cpp", "c++"), ("c++", "c++"),
   ("csharp", "c#"), ("c#", "c#"), ("go", "go"), ("rust", "rust"),
   ("ruby", "ruby"), ("php", "php"), ("swift", "swift"),
   ("kotlin", "kotlin"), ("sql", "sql"), ("shell", "shell"),
   ("bash", "bash"), ("powershell", "powershell"),
   ("yaml", "yaml"), ("json", "json"), ("xml", "xml"),
   ("html", "html"), ("css", "css"), ("markdown", "markdown")]

/-- Embedding of `_map_language`: case-insensitive table lookup with
the plain-text default. -/
def map_language (language : String) : String :=
  (language_map.lookup (String.mk (pyLower language.data))).getD "plain text"

/-- Consecutive chunks of at most `n` elements, the Python slicing loop
`[s[i:i+n] for i in range(0, len(s), n)]`. -/
def chunksOfFuel {α : Type} (n : Nat) : Nat → List α → List (List α)
  | 0, _ => []
  | _, [] => []
  | fuel + 1, s => s.take n :: chunksOfFuel n fuel (s.drop n)

/-- Mutable state of `ObsidianToNotionConverter`: the accumulated block
list and the current list type. -/
structure ConverterState where
  blocks : List Block
  current_list_type : Option String
deriving DecidableEq, Repr

/-- Fresh converter state, as built by `__init__`. -/
def initState : ConverterState :=
  { blocks := [], current_list_type := none }

/-- One block-level event of the markdown structural parser, carrying
the arguments the corresponding renderer method receives. -/
inductive MdEvent where
  | heading (text : String) (level : Nat)
  | paragraph (text : String)
  | block_code (code : String) (info : Option String)
  | block_quote (text : String)
  | list (ordered : Bool)
  | list_item (text : String)
  | image (text : String) (url : String)
  | thematic_break
deriving Repr

/-- The heading type string for a level, with the clamp of levels above
three; level zero would be a KeyError in the source, hence `none`. -/
def heading_type (level : Nat) : Option String :=
  let lv := if level > 3 then 3 else level
  if lv = 1 then some "heading_1"
  else if lv = 2 then some "heading_2"
  else if lv = 3 then some "heading_3"
  else none

/-- One step of the block builder, mirroring the renderer methods of
`ObsidianToNotionConverter`.  `none` models an uncaught exception. -/
def step (st : ConverterState) : MdEvent → Option ConverterState
  | .heading text level =>
    match heading_type level with
    | some ht =>
      some { st with blocks := st.blocks ++ [Block.heading ht [plainRun (take2000 text.data)]] }
    | none => none
  | .paragraph text =>
    if (pyStrip text.data).isEmpty then some st
    else
      match parse_rich_text text with
      | some rich => some { st with blocks := st.blocks ++ [Block.paragraph rich] }
      | none => none
  | .block_code code info =>
    let language :=
      match info with
      | none => "plain text"
      | some i => if i = "" then "plain text" else String.mk (pyStrip i.data)
    let chunks := chunksOfFuel 2000 (code.data.length + 1) code.data
    let newBlocks :=
      chunks.map (fun ch => Block.code [plainRun (String.mk ch)] (map_language language))
    some { st with blocks := st.blocks ++ newBlocks }
  | .block_quote text =>
    some { st with blocks := st.blocks ++ [Block.quote [plainRun (take2000 text.data)]] }
  | .list ordered =>
    let lt := if ordered then "numbered_list_item" else "bulleted_list_item"
    some { st with current_list_type := some lt }
  | .list_item text =>
    let lt := st.current_list_type.getD "bulleted_list_item"
    match parse_rich_text text with
    | some rich => some { st with blocks := st.blocks ++ [Block.listItem lt rich] }
    | none => none
  | .image text url =>
    if (pyStrip url.data).isEmpty then some st
    else
      some { st with blocks := st.blocks ++
        [Block.image url (if text = "" then [] else [plainRun (take2000 text.data)])] }
  | .thematic_break =>
    some { st with blocks := st.blocks ++ [Block.divider] }

/-- Run a sequence of structural events from the fresh state. -/
def runEvents (events : List MdEvent) : Option ConverterState :=
  events.foldlM step initState

/-! ## Batch Emitter: the block-submission loop of `create_notion_page` -/

/-- The observable outcome of the block-submission loop: the sequence
of calls made to the document API (each call is the block list passed
to it) and whether the loop re-raised a batch failure. -/
structure SubmitTrace where
  calls : List (List Block)
  raised : Bool
deriving DecidableEq, Repr

/-- The submission loop of `create_notion_page`: batches of 100 blocks
in order; a failed batch is retried block by block (those calls are
made whatever their outcomes, which the source only prints) and the
batch failure is then re-raised, aborting the loop. -/
def submitBatchesFuel (api : List Block → Bool) : Nat → List Block → SubmitTrace
  | 0, _ => { calls := [], raised := false }
  | _, [] => { calls := [], raised := false }
  | fuel + 1, blocks =>
    let batch := blocks.take 100
    if api batch then
      let t := submitBatchesFuel api fuel (blocks.drop 100)
      { calls := batch :: t.calls, raised := t.raised }
    else
      { calls := batch :: batch.map (fun b => [b]), raised := true }

/-- Entry point of the submission loop. -/
def create_notion_page_submit (api : List Block → Bool) (blocks : List Block) :
    SubmitTrace :=
  submitBatchesFuel api (blocks.length + 1) blocks

/-- The batch partition: consecutive chunks of 100 blocks. -/
def chunks100 (blocks : List Block) : List (List Block) :=
  chunksOfFuel 100 (blocks.length + 1) blocks

/-- Modelled from the spec (section on the Batch Emitter): the intended
reading of the submission loop as a scan over the batch partition, used
as the specification side of the refinement theorem for the loop. -/
def submitSpecAux (api : List Block → Bool) : List (List Block) → SubmitTrace
  | [] => { calls := [], raised := false }
  | c :: cs =>
    if api c then
      let t := submitSpecAux api cs
      { calls := c :: t.calls, raised := t.raised }
    else { calls := c :: c.map (fun b => [b]), raised := true }

/-- Specification-side submission: partition first, then scan. -/
def submitSpec (api : List Block → Bool) (blocks : List Block) : SubmitTrace :=
  submitSpecAux api (chunks100 blocks)

/-! ## Filesystem model and Path Resolver: `resolve_relative_path`

The filesystem is a parameter: `file p = some c` means `p` is a regular
file whose byte content is abstracted to `c` (the md5 digest is an
abstract function of it), `isDir` marks directories, and `rglob d n`
is the filesystem-enumeration-ordered result of `Path(d).rglob(n)`.
Paths are canonical strings: `Path.resolve` is the identity of this
model and joining is string concatenation with a slash (with the
pathlib rule that an absolute right operand replaces the left). -/

structure FS where
  file : String → Option Nat
  isDir : String → Bool
  rglob : String → String → List String

/-- The pathlib `/` join: an absolute right operand wins. -/
def pyJoin (d p : String) : String :=
  if p.data.head? = some '/' then p else d ++ "/" ++ p

/-- `Path(p).parent` as a string (canonical inputs). -/
def dirname (p : String) : String :=
  match p.data.reverse.dropWhile (fun c => ¬ c = '/') with
  | [] => "."
  | _ :: rest => String.mk rest.reverse

/-- `Path(p).name`: the final component, trailing slashes stripped. -/
def basename (p : String) : String :=
  let s := p.data.reverse.dropWhile (fun c => c = '/')
  String.mk ((s.takeWhile (fun c => ¬ c = '/')).reverse)

/-- `Path(p).suffix`: the final dotted extension of the final
component, empty for dotless names, names ending in a dot, and hidden
files. -/
def pathSuffix (p : String) : String :=
  let name := (basename p).data
  let er := name.reverse.takeWhile (fun c => ¬ c = '.')
  let rest := name.reverse.dropWhile (fun c => ¬ c = '.')
  if rest.length ≤ 1 ∨ er.isEmpty then ""
  else String.mk ('.' :: er.reverse)

/-- The conventional attachment subfolders tried in single-folder mode,
in source order. -/
def attachment_folders : List String :=
  ["attachments", "Attachments", "assets", "Assets", "files", "Files",
   "images", "Images", "pdfs", "PDFs"]

/-- Embedding of `resolve_relative_path`: URL pass-through, decode and
trim, the strategy ladder (markdown-relative; in single-folder mode the
attachment subfolders then the recursive basename search; in vault mode
vault-relative), `none` when nothing succeeds. -/
def resolve_relative_path (fs : FS) (file_path : String)
    (markdown_file_path : String) (vault_dir : String) : Option String :=
  if is_url file_path then some file_path
  else
    let fp := String.mk (pyStrip (percentDecode file_path.data))
    if fp = "" then none
    else
      let md_dir := dirname markdown_file_path
      let relative_path := pyJoin md_dir fp
      if (fs.file relative_path).isSome then some relative_path
      else if md_dir = vault_dir then
        let file_name := basename fp
        match attachment_folders.findSome? (fun folder =>
          let folder_path := pyJoin (pyJoin md_dir folder) file_name
          if (fs.file folder_path).isSome then some folder_path else none) with
        | some p => some p
        | none => (fs.rglob md_dir file_name).find? (fun item => (fs.file item).isSome)
      else
        let vault_relative := pyJoin vault_dir fp
        if (fs.file vault_relative).isSome then some vault_relative else none

/-- Embedding of `get_unique_path_for_file`: the parent directory of
the path relative to the vault (or `root` at top level), with an
abstract 8-character path digest as the outside-the-vault fallback. -/
def get_unique_path_for_file (pathHash : String → String)
    (file_path vault_dir : String) : String :=
  if file_path = vault_dir then "root"
  else if (vault_dir.data ++ ['/']).isPrefixOf file_path.data then
    let rel := String.mk (file_path.data.drop (vault_dir.data.length + 1))
    let parent := dirname rel
    if parent = "." ∨ parent = "" then "root" else parent
  else String.mk ((pathHash file_path).data.take 8)

/-! ## Attachment Cache & Uploader: `FileUploader` -/

/-- Mutable state of a `FileUploader`: the content-keyed URL cache, the
statistics counters, and (for the theorems) the trace of provider
invocations with their arguments. -/
structure UploaderState where
  cache : List (String × String)
  images : Nat
  pdfs : Nat
  other : Nat
  failed : Nat
  skipped_dirs : Nat
  providerCalls : List (String × String)
deriving DecidableEq, Repr

/-- Fresh uploader state, as built by `FileUploader.__init__`. -/
def initUploader : UploaderState :=
  { cache := [], images := 0, pdfs := 0, other := 0, failed := 0,
    skipped_dirs := 0, providerCalls := [] }

/-- Embedding of `FileUploader._get_cache_key`: the file path, an
underscore, and the md5 digest of the file bytes (the digest is the
abstract `md5hex` of the abstract content); an unreadable file falls
back to the bare path. -/
def get_cache_key (md5hex : Nat → String) (fs : FS) (file_path : String) :
    String :=
  match fs.file file_path with
  | some content => file_path ++ "_" ++ md5hex content
  | none => file_path

/-- Image extensions classified by the uploader statistics. -/
def imageExts : List String :=
  [".png", ".jpg", ".jpeg", ".gif", ".webp", ".svg", ".bmp"]

/-- Embedding of `FileUploader.upload`: existence and regular-file
checks, cache lookup on the content key, provider delegation recorded
in the call trace, caching and classification on success. -/
def FileUploader.upload (md5hex : Nat → String)
    (provider : String → String → Option String) (fs : FS)
    (st : UploaderState) (file_path unique_path : String) :
    UploaderState × Option String :=
  if ¬ ((fs.file file_path).isSome || fs.isDir file_path) then
    ({ st with failed := st.failed + 1 }, none)
  else if (fs.file file_path).isNone then
    ({ st with skipped_dirs := st.skipped_dirs + 1 }, none)
  else
    let cache_key := get_cache_key md5hex fs file_path
    match st.cache.lookup cache_key with
    | some url => (st, some url)
    | none =>
      let st1 := { st with providerCalls := st.providerCalls ++ [(file_path, unique_path)] }
      match provider file_path unique_path with
      | some url =>
        let file_ext := String.mk (pyLower (pathSuffix file_path).data)
        let st2 := { st1 with cache := st1.cache ++ [(cache_key, url)] }
        let st3 :=
          if file_ext = ".pdf" then { st2 with pdfs := st2.pdfs + 1 }
          else if file_ext ∈ imageExts then { st2 with images := st2.images + 1 }
          else { st2 with other := st2.other + 1 }
        (st3, some url)
      | none => ({ st1 with failed := st1.failed + 1 }, none)

/-! ## Attachment rewrite pass: `parse_markdown_to_blocks.upload_and_replace_image` -/

/-- State threaded through the image-rewrite pass: the per-document
cache of already-rewritten sources and the run-scoped uploader state. -/
structure RewriteState where
  uploaded_images : List (String × String)
  uploader : UploaderState
deriving DecidableEq, Repr

/-- The lookahead of the image pattern: whitespace, end of input, a
bang or an open bracket. -/
def imgLookahead (s : List Char) : Bool :=
  match s with
  | [] => true
  | c :: _ => pyIsSpace c || c = '!' || c = '['

/-- The lazy target of the image pattern: the shortest nonempty
newline-free prefix followed by a close paren satisfying the
lookahead. -/
def scanImgTargetFuel : Nat → List Char → List Char → Option (List Char × List Char)
  | 0, _, _ => none
  | _ + 1, _, [] => none
  | fuel + 1, acc, c :: rest =>
    if c = '\n' then none
    else if c = ')' ∧ ¬ acc.isEmpty ∧ imgLookahead rest then some (acc.reverse, rest)
    else scanImgTargetFuel fuel (c :: acc) rest

/-- Full image-pattern match attempt after the bang and open bracket:
the (possibly empty) bracket-free alt text, the close bracket and open
paren, then the lazy target.  Returns alt text, target and remainder.
The replacer of the source re-extracts the target from the matched text
with a second regex; as the alt text contains no close bracket, that
extraction returns precisely the target group modelled here. -/
def scanImageMatch (rest : List Char) : Option (List Char × List Char × List Char) :=
  let alt := rest.takeWhile (fun c => ¬ c = ']')
  match rest.dropWhile (fun c => ¬ c = ']') with
  | ']' :: '(' :: r2 =>
    match scanImgTargetFuel (r2.length + 1) [] r2 with
    | some (tgt, rest2) => some (alt, tgt, rest2)
    | none => none
  | _ => none

/-- Embedding of the replacer `upload_and_replace_image`: hosted URLs
pass through, cached sources are rewritten from the per-document cache,
otherwise the target is decoded, resolved and uploaded, rewriting the
match on success (and caching the source) and reproducing the original
match on any failure. -/
def upload_and_replace_image (md5hex : Nat → String)
    (pathHash : String → String)
    (provider : String → String → Option String) (fs : FS)
    (markdown_file_path vault_dir : String) (hasUploader : Bool)
    (rs : RewriteState) (alt src : List Char) : List Char × RewriteState :=
  let rebuilt := fun (target : List Char) =>
    '!' :: '[' :: (alt ++ ']' :: '(' :: (target ++ [')']))
  if is_url (String.mk src) then (rebuilt src, rs)
  else
    match rs.uploaded_images.lookup (String.mk src) with
    | some url => (rebuilt url.data, rs)
    | none =>
      let decoded_src := String.mk (percentDecode src)
      match resolve_relative_path fs decoded_src markdown_file_path vault_dir with
      | some file_path =>
        if (fs.file file_path).isSome ∧ hasUploader then
          let unique_path := get_unique_path_for_file pathHash file_path vault_dir
          let r := FileUploader.upload md5hex provider fs rs.uploader file_path unique_path
          match r.2 with
          | some file_url =>
            (rebuilt file_url.data,
             { uploaded_images := rs.uploaded_images ++ [(String.mk src, file_url)],
               uploader := r.1 })
          | none => (rebuilt src, { rs with uploader := r.1 })
        else (rebuilt src, rs)
      | none => (rebuilt src, rs)

/-- The image-rewrite substitution pass over a whole document, driving
the replacer over every leftmost match of the image pattern. -/
def rewriteImagesFuel (md5hex : Nat → String) (pathHash : String → String)
    (provider : String → String → Option String) (fs : FS)
    (markdown_file_path vault_dir : String) (hasUploader : Bool) :
    Nat → RewriteState → List Char → (List Char × RewriteState)
  | 0, rs, s => (s, rs)
  | _ + 1, rs, [] => ([], rs)
  | fuel + 1, rs, c :: rest =>
    match c :: rest with
    | '!' :: '[' :: rest1 =>
      match scanImageMatch rest1 with
      | some (alt, tgt, rest2) =>
        let r := upload_and_replace_image md5hex pathHash provider fs
          markdown_file_path vault_dir hasUploader rs alt tgt
        let t := rewriteImagesFuel md5hex pathHash provider fs
          markdown_file_path vault_dir hasUploader fuel r.2 rest2
        (r.1 ++ t.1, t.2)
      | none =>
        let t := rewriteImagesFuel md5hex pathHash provider fs
          markdown_file_path vault_dir hasUploader fuel rs ('[' :: rest1)
        ('!' :: t.1, t.2)
    | _ =>
      let t := rewriteImagesFuel md5hex pathHash provider fs
        markdown_file_path vault_dir hasUploader fuel rs rest
      (c :: t.1, t.2)

/-- Entry point of the rewrite pass for one document, with a fresh
per-document cache and a given run-scoped uploader state. -/
def rewrite_images (md5hex : Nat → String) (pathHash : String → String)
    (provider : String → String → Option String) (fs : FS)
    (markdown_file_path vault_dir : String) (hasUploader : Bool)
    (uploader : UploaderState) (content : String) : String × RewriteState :=
  let r := rewriteImagesFuel md5hex pathHash provider fs markdown_file_path
    vault_dir hasUploader (content.data.length + 1)
    { uploaded_images := [], uploader := uploader } content.data
  (String.mk r.1, r.2)

/-! ## Helper definitions for the theorem statements -/

/-- Does the text contain two adjacent open brackets (the trigger
shared by the embed and wiki-link patterns)? -/
def hasLL : List Char → Bool
  | [] => false
  | c :: rest => (c = '[' && rest.take 1 = ['[']) || hasLL rest

/-- The rich-text runs carried by a block (the caption for an image,
nothing for a divider). -/
def blockRich : Block → List RichTextRun
  | .heading _ r => r
  | .paragraph r => r
  | .code r _ => r
  | .quote r => r
  | .listItem _ r => r
  | .image _ cap => cap
  | .divider => []

/-- The ordered list of attachment-subfolder candidates the resolver
tries in single-folder mode for a reference with the given decoded
text. -/
def folderCandidates (md_dir fp : String) : List String :=
  attachment_folders.map (fun folder => pyJoin (pyJoin md_dir folder) (basename fp))

/-- The literal bracket syntax of a link, as the formatter reproduces
it for an invalid target. -/
def linkLiteral (d t : List Char) : List Char :=
  '[' :: (d ++ ']' :: '(' :: (t ++ [')']))

/-- Every run of the list respects the 2000-character content limit. -/
def boundedRuns (rs : List RichTextRun) : Prop :=
  ∀ r ∈ rs, r.content.length ≤ 2000

/-- Every run of every block respects the content limit. -/
def boundedBlocks (bs : List Block) : Prop :=
  ∀ b ∈ bs, boundedRuns (blockRich b)

/-- Concrete stand-in for the abstract md5 digest in the executable
counterexamples and witnesses. -/
def md5hexModel : Nat → String :=
  fun n => String.mk (natDecimal n)

/-- Concrete stand-in for the abstract path digest. -/
def pathHashModel : String → String := id

/-- Filesystem with two distinct regular files of identical content. -/
def fsTwin : FS :=
  { file := fun p => if p = "/v/a.png" ∨ p = "/v/b.png" then some 7 else none,
    isDir := fun _ => false,
    rglob := fun _ _ => [] }

/-- Provider whose URL depends on the uploaded path. -/
def providerByPath : String → String → Option String :=
  fun p _ => some ("u_" ++ p)

/-- Provider that always fails. -/
def providerFail : String → String → Option String :=
  fun _ _ => none

/-- Filesystem with one image inside an attachments subfolder. -/
def fsAttach : FS :=
  { file := fun p => if p = "/v/attachments/pic.png" then some 3 else none,
    isDir := fun _ => false,
    rglob := fun _ _ => [] }

/-- Filesystem with one image at the top of the folder. -/
def fsFlat : FS :=
  { file := fun p => if p = "/v/a.png" then some 5 else none,
    isDir := fun _ => false,
    rglob := fun _ _ => [] }

/-- Document API that accepts only single-block calls. -/
def apiLimit1 : List Block → Bool :=
  fun l => decide (l.length ≤ 1)

/-! # Theorems -/

theorem mem_all_ne (ch : Char) (x : List Char) (hc : ch ∉ x) :
    ∀ c ∈ x, (decide ¬(c = ch)) = true := by
  intro c hcx
  simp only [decide_eq_true_eq]
  intro h
  exact hc (h ▸ hcx)

theorem takeWhile_append_cons (p : Char → Bool) (d : List Char) (x : Char)
    (rest : List Char) (hd : ∀ c ∈ d, p c = true) (hx : p x = false) :
    (d ++ x :: rest).takeWhile p = d := by
  induction d with
  | nil => simp [List.takeWhile_cons, hx]
  | cons a as ih =>
    have ha : p a = true := hd a (List.mem_cons_self a as)
    simp only [List.cons_append, List.takeWhile_cons, ha, if_true]
    rw [ih (fun c hcx => hd c (List.mem_cons_of_mem a hcx))]

theorem dropWhile_append_cons (p : Char → Bool) (d : List Char) (x : Char)
    (rest : List Char) (hd : ∀ c ∈ d, p c = true) (hx : p x = false) :
    (d ++ x :: rest).dropWhile p = x :: rest := by
  induction d with
  | nil => simp [List.dropWhile_cons, hx]
  | cons a as ih =>
    have ha : p a = true := hd a (List.mem_cons_self a as)
    simp only [List.cons_append, List.dropWhile_cons, ha, if_true]
    exact ih (fun c hcx => hd c (List.mem_cons_of_mem a hcx))

theorem scanDoubleClose_eq (x rest : List Char) (hx : ¬ x = []) (hc : ']' ∉ x) :
    scanDoubleClose (x ++ ']' :: ']' :: rest) = some (x, rest) := by
  unfold scanDoubleClose
  rw [takeWhile_append_cons _ x ']' (']' :: rest) (mem_all_ne ']' x hc) (by simp)]
  rw [dropWhile_append_cons _ x ']' (']' :: rest) (mem_all_ne ']' x hc) (by simp)]
  simp [hx]

theorem embedSubFuel_nil (fuel : Nat) : embedSubFuel fuel [] = [] := by
  cases fuel <;> rfl

theorem wikiSubFuel_nil (pm : List (String × String)) (fuel : Nat) :
    wikiSubFuel pm fuel [] = [] := by
  cases fuel <;> rfl

theorem hasLL_cons (c : Char) (rest : List Char) :
    hasLL (c :: rest) = ((c = '[' && rest.take 1 = ['[']) || hasLL rest) := rfl

theorem hasLL_false_of_not_mem (s : List Char) (h : '[' ∉ s) : hasLL s = false := by
  induction s with
  | nil => rfl
  | cons a as ih =>
    rw [hasLL_cons]
    have ha : ¬ a = '[' := fun hh => h (hh ▸ List.mem_cons_self a as)
    simp [ha]
    exact ih (fun hm => h (List.mem_cons_of_mem a hm))

theorem hasLL_false_append (s t : List Char) (hs : '[' ∉ s) (ht : hasLL t = false) :
    hasLL (s ++ t) = false := by
  induction s with
  | nil => simpa using ht
  | cons a as ih =>
    rw [List.cons_append, hasLL_cons]
    have ha : ¬ a = '[' := fun hh => hs (hh ▸ List.mem_cons_self a as)
    simp [ha]
    exact ih (fun hm => hs (List.mem_cons_of_mem a hm))

theorem embedSubFuel_id (fuel : Nat) (s : List Char) (h : hasLL s = false) :
    embedSubFuel fuel s = s := by
  induction fuel generalizing s with
  | zero => rfl
  | succ n ih =>
    cases s with
    | nil => rfl
    | cons c rest =>
      rw [hasLL_cons] at h
      have h1 : (c = '[' && rest.take 1 = ['[']) = false := by
        cases hh : (c = '[' && rest.take 1 = ['[']) with
        | false => rfl
        | true => rw [hh] at h; simp at h
      have h2 : hasLL rest = false := by
        cases hh : hasLL rest with
        | false => rfl
        | true => rw [hh] at h; simp at h
      have hcond : ¬ (c = '!' ∧ rest.take 2 = ['[', '[']) := by
        rintro ⟨_, htake⟩
        cases rest with
        | nil => simp at htake
        | cons r1 rr =>
          simp only [List.take_succ_cons, List.cons.injEq] at htake
          rw [hasLL_cons, htake.1, htake.2] at h2
          simp at h2
      simp only [embedSubFuel]
      rw [if_neg hcond, ih rest h2]

theorem embedSubFuel_id_of_no_bang (fuel : Nat) (s : List Char) (h : '!' ∉ s) :
    embedSubFuel fuel s = s := by
  induction fuel generalizing s with
  | zero => rfl
  | succ n ih =>
    cases s with
    | nil => rfl
    | cons c rest =>
      have hc : ¬ c = '!' := fun hh => h (hh ▸ List.mem_cons_self c rest)
      have hcond : ¬ (c = '!' ∧ rest.take 2 = ['[', '[']) := fun hh => hc hh.1
      simp only [embedSubFuel]
      rw [if_neg hcond, ih rest (fun hm => h (List.mem_cons_of_mem c hm))]

theorem wikiSubFuel_id (pm : List (String × String)) (fuel : Nat) (s : List Char)
    (h : hasLL s = false) : wikiSubFuel pm fuel s = s := by
  induction fuel generalizing s with
  | zero => rfl
  | succ n ih =>
    cases s with
    | nil => rfl
    | cons c rest =>
      rw [hasLL_cons] at h
      have h2 : hasLL rest = false := by
        cases hh : hasLL rest with
        | false => rfl
        | true => rw [hh] at h; simp at h
      have hcond : ¬ (c = '[' ∧ rest.take 1 = ['[']) := by
        rintro ⟨hc, ht⟩
        rw [hc, ht] at h
        simp at h
      simp only [wikiSubFuel]
      rw [if_neg hcond, ih rest h2]

theorem embedSubFuel_embed (x : List Char) (fuel : Nat) (hx : ¬ x = [])
    (hc : ']' ∉ x) :
    embedSubFuel (fuel + 1) ('!' :: '[' :: '[' :: (x ++ [']', ']'])) =
      '!' :: '[' :: ']' :: '(' :: (x ++ [')']) := by
  have hscan : scanDoubleClose (x ++ [']', ']']) = some (x, []) :=
    scanDoubleClose_eq x [] hx hc
  simp [embedSubFuel, hscan, embedSubFuel_nil]

theorem wikiSubFuel_match (pm : List (String × String)) (lc : List Char)
    (fuel : Nat) (h1 : ¬ lc = []) (h2 : ']' ∉ lc) :
    wikiSubFuel pm (fuel + 1) ('[' :: '[' :: (lc ++ [']', ']'])) =
      replace_wiki_link pm lc := by
  have hscan : scanDoubleClose (lc ++ [']', ']']) = some (lc, []) :=
    scanDoubleClose_eq lc [] h1 h2
  simp [wikiSubFuel, hscan, wikiSubFuel_nil]

theorem replace_wiki_link_nopipe (pm : List (String × String)) (lc : List Char)
    (hp : '|' ∉ lc) :
    replace_wiki_link pm lc =
      match pm.lookup (String.mk lc) with
      | some url => '[' :: (lc ++ ']' :: '(' :: (url.data ++ [')']))
      | none => lc := by
  unfold replace_wiki_link
  rw [if_neg hp, if_neg hp]

theorem replace_wiki_link_pipe (pm : List (String × String)) (A B : List Char)
    (hp : '|' ∉ A) :
    replace_wiki_link pm (A ++ '|' :: B) =
      match pm.lookup (String.mk A) with
      | some url => '[' :: (B ++ ']' :: '(' :: (url.data ++ [')']))
      | none => B := by
  unfold replace_wiki_link
  have hm : '|' ∈ A ++ '|' :: B := List.mem_append_right A (List.mem_cons_self _ _)
  rw [if_pos hm, if_pos hm]
  rw [takeWhile_append_cons _ A '|' B (mem_all_ne '|' A hp) (by simp)]
  rw [dropWhile_append_cons _ A '|' B (mem_all_ne '|' A hp) (by simp)]
  rfl

theorem hasLL_linkLiteral (d u : List Char) (hd : '[' ∉ d) (hu : '[' ∉ u) :
    hasLL (linkLiteral d u) = false := by
  unfold linkLiteral
  have hu2 : '[' ∉ u ++ [')'] := by
    intro hm
    rcases List.mem_append.mp hm with hin | hin
    · exact hu hin
    · simp at hin
  have h1 : hasLL (d ++ ']' :: '(' :: (u ++ [')'])) = false :=
    hasLL_false_append d _ hd
      (hasLL_false_append [']', '('] (u ++ [')']) (by decide)
        (hasLL_false_of_not_mem _ hu2))
  rw [hasLL_cons]
  cases d with
  | nil =>
    simp only [List.nil_append] at h1
    simp [h1]
  | cons a as =>
    have ha : ¬ a = '[' := fun hh => hd (hh ▸ List.mem_cons_self a as)
    simp only [List.cons_append] at h1
    simp [h1, ha, List.cons_append]

/-- C5: normalization first rewrites every embed to image syntax, then
rewrites wiki-links through the page map (pipe display text, bare
display on a miss), and leaves text without double open brackets — in
particular ordinary links — byte-for-byte unchanged. -/
theorem C5_link_normalizer (pm : List (String × String)) (x A B : List Char)
    (U : String) (s : String) (d u : List Char) :
    (¬ x = [] → ']' ∉ x → '[' ∉ x →
      convert_obsidian_links (String.mk ('!' :: '[' :: '[' :: (x ++ [']', ']']))) pm
        = String.mk ('!' :: '[' :: ']' :: '(' :: (x ++ [')'])))
    ∧ (¬ A = [] → ']' ∉ A → '!' ∉ A → '|' ∉ A →
        pm.lookup (String.mk A) = some U →
        convert_obsidian_links (String.mk ('[' :: '[' :: (A ++ [']', ']']))) pm
          = String.mk ('[' :: (A ++ ']' :: '(' :: (U.data ++ [')']))))
    ∧ (¬ A = [] → ']' ∉ A → '!' ∉ A → '|' ∉ A → ']' ∉ B → '!' ∉ B →
        pm.lookup (String.mk A) = some U →
        convert_obsidian_links (String.mk ('[' :: '[' :: (A ++ '|' :: B ++ [']', ']']))) pm
          = String.mk ('[' :: (B ++ ']' :: '(' :: (U.data ++ [')']))))
    ∧ (¬ A = [] → ']' ∉ A → '!' ∉ A → '|' ∉ A →
        pm.lookup (String.mk A) = none →
        convert_obsidian_links (String.mk ('[' :: '[' :: (A ++ [']', ']']))) pm
          = String.mk A)
    ∧ (hasLL s.data = false → convert_obsidian_links s pm = s)
    ∧ ('[' ∉ d → '[' ∉ u →
        convert_obsidian_links (String.mk (linkLiteral d u)) pm
          = String.mk (linkLiteral d u)) := by
  have passthrough : ∀ t : String, hasLL t.data = false →
      convert_obsidian_links t pm = t := by
    intro t ht
    simp only [convert_obsidian_links]
    rw [embedSubFuel_id _ _ ht, wikiSubFuel_id pm _ _ ht]
  refine ⟨?_, ?_, ?_, ?_, passthrough s, ?_⟩
  · intro hx1 hx2 hx3
    simp only [convert_obsidian_links]
    rw [embedSubFuel_embed x _ hx1 hx2]
    have hx4 : '[' ∉ x ++ [')'] := by
      intro hm
      rcases List.mem_append.mp hm with hin | hin
      · exact hx3 hin
      · simp at hin
    have hr : hasLL ('!' :: '[' :: ']' :: '(' :: (x ++ [')'])) = false := by
      have ht : hasLL (']' :: '(' :: (x ++ [')'])) = false :=
        hasLL_false_append [']', '('] _ (by decide)
          (hasLL_false_of_not_mem _ hx4)
      rw [hasLL_cons, hasLL_cons]
      simp [ht]
    rw [wikiSubFuel_id pm _ _ hr]
  · intro h1 h2 h3 h4 h5
    simp only [convert_obsidian_links]
    have hnb : '!' ∉ ('[' :: '[' :: (A ++ [']', ']'])) := by
      simp only [List.mem_cons, List.mem_append]
      push_neg
      exact ⟨by decide, by decide, h3, by decide⟩
    rw [embedSubFuel_id_of_no_bang _ _ hnb]
    rw [wikiSubFuel_match pm A _ h1 h2, replace_wiki_link_nopipe pm A h4, h5]
  · intro h1 h2 h3 h4 hB1 hB2 h5
    simp only [convert_obsidian_links]
    have hnb : '!' ∉ ('[' :: '[' :: (A ++ '|' :: B ++ [']', ']'])) := by
      simp [List.mem_cons, List.mem_append, h3, hB2]
    rw [embedSubFuel_id_of_no_bang _ _ hnb]
    have hshape : A ++ '|' :: B ++ [']', ']'] = (A ++ '|' :: B) ++ [']', ']'] := by
      simp [List.append_assoc]
    rw [hshape]
    have hlc1 : ¬ (A ++ '|' :: B) = [] := by simp [h1]
    have hlc2 : ']' ∉ A ++ '|' :: B := by
      intro hm
      rcases List.mem_append.mp hm with hin | hin
      · exact h2 hin
      · rcases List.mem_cons.mp hin with hin | hin
        · simp at hin
        · exact hB1 hin
    rw [wikiSubFuel_match pm (A ++ '|' :: B) _ hlc1 hlc2]
    rw [replace_wiki_link_pipe pm A B h4, h5]
  · intro h1 h2 h3 h4 h5
    simp only [convert_obsidian_links]
    have hnb : '!' ∉ ('[' :: '[' :: (A ++ [']', ']'])) := by
      simp only [List.mem_cons, List.mem_append]
      push_neg
      exact ⟨by decide, by decide, h3, by decide⟩
    rw [embedSubFuel_id_of_no_bang _ _ hnb]
    rw [wikiSubFuel_match pm A _ h1 h2, replace_wiki_link_nopipe pm A h4, h5]
  · intro hd hu
    exact passthrough (String.mk (linkLiteral d u)) (hasLL_linkLiteral d u hd hu)

theorem C5_link_normalizer_witness :
    convert_obsidian_links
        (String.mk ('!' :: '[' :: '[' :: ("pic.png".data ++ [']', ']'])))
        [("A", "http://u")]
      = String.mk ('!' :: '[' :: ']' :: '(' :: ("pic.png".data ++ [')']))
    ∧ convert_obsidian_links
        (String.mk ('[' :: '[' :: ("A".data ++ '|' :: "B".data ++ [']', ']'])))
        [("A", "http://u")]
      = String.mk ('[' :: ("B".data ++ ']' :: '(' :: ("http://u".data ++ [')']))) := by
  constructor
  · exact (C5_link_normalizer [("A", "http://u")] "pic.png".data [] [] "" "" [] []).1
      (by decide) (by decide) (by decide)
  · exact (C5_link_normalizer [("A", "http://u")] [] "A".data "B".data "http://u" "" [] []).2.2.1
      (by decide) (by decide) (by decide) (by decide) (by decide) (by decide) (by decide)

theorem chunksOfFuel_flatten {α : Type} (n : Nat) (hn : 0 < n) :
    ∀ (fuel : Nat) (l : List α), l.length < fuel →
      (chunksOfFuel n fuel l).flatten = l := by
  intro fuel
  induction fuel with
  | zero => intro l h; omega
  | succ m ih =>
    intro l h
    cases l with
    | nil => rfl
    | cons a as =>
      simp only [chunksOfFuel, List.flatten_cons]
      have hlen : ((a :: as).drop n).length < m := by
        rw [List.length_drop]
        simp only [List.length_cons]
        simp only [List.length_cons] at h
        omega
      rw [ih ((a :: as).drop n) hlen]
      exact List.take_append_drop n (a :: as)

theorem chunksOfFuel_le {α : Type} (n : Nat) :
    ∀ (fuel : Nat) (l : List α), ∀ c ∈ chunksOfFuel n fuel l, c.length ≤ n := by
  intro fuel
  induction fuel with
  | zero => intro l c hc; simp [chunksOfFuel] at hc
  | succ m ih =>
    intro l c hc
    cases l with
    | nil => simp [chunksOfFuel] at hc
    | cons a as =>
      simp only [chunksOfFuel] at hc
      rcases List.mem_cons.mp hc with h | h
      · rw [h]; exact List.length_take_le _ _
      · exact ih ((a :: as).drop n) c h

theorem submitBatches_eq_spec (api : List Block → Bool) :
    ∀ (fuel : Nat) (blocks : List Block), blocks.length < fuel →
      submitBatchesFuel api fuel blocks
        = submitSpecAux api (chunksOfFuel 100 fuel blocks) := by
  intro fuel
  induction fuel with
  | zero => intro blocks h; omega
  | succ m ih =>
    intro blocks h
    cases blocks with
    | nil => rfl
    | cons b bs =>
      have hlen : ((b :: bs).drop 100).length < m := by
        rw [List.length_drop]
        simp only [List.length_cons]
        simp only [List.length_cons] at h
        omega
      simp only [submitBatchesFuel, chunksOfFuel, submitSpecAux]
      rw [ih ((b :: bs).drop 100) hlen]

set_option maxRecDepth 4000 in
/-- C2 (amended): the submission loop partitions the blocks into
order-preserving batches of at most 100 (250 blocks giving 100, 100,
50), equals the partition-then-scan specification — so a failed batch
is retried block by block in original order — and re-raises the batch
failure unconditionally after those per-block attempts. -/
theorem C2_batch_submission (api : List Block → Bool) (blocks : List Block)
    (c : List Block) :
    ((chunks100 blocks).flatten = blocks)
    ∧ (c ∈ chunks100 blocks → c.length ≤ 100)
    ∧ ((chunks100 (List.replicate 250 Block.divider)).map List.length
        = [100, 100, 50])
    ∧ (create_notion_page_submit api blocks = submitSpec api blocks) := by
  refine ⟨?_, ?_, by decide, ?_⟩
  · exact chunksOfFuel_flatten 100 (by omega) (blocks.length + 1) blocks (by omega)
  · intro hc
    exact chunksOfFuel_le 100 (blocks.length + 1) blocks c hc
  · exact submitBatches_eq_spec api (blocks.length + 1) blocks (by omega)

theorem C2_batch_submission_witness :
    ([Block.divider] ∈ chunks100 [Block.divider] ∧ [Block.divider].length ≤ 100)
    ∧ (chunks100 [Block.divider, Block.divider]).flatten
        = [Block.divider, Block.divider] := by
  exact ⟨⟨by decide, (C2_batch_submission apiLimit1 [Block.divider] [Block.divider]).2.1
    (by decide)⟩,
    (C2_batch_submission apiLimit1 [Block.divider, Block.divider] []).1⟩

/-- C2 counterexample: with an API accepting only single-block calls,
a two-block document fails as a batch, both blocks are re-submitted
individually and succeed, yet the loop still re-raises — the failure is
not re-raised only when some individual block failed. -/
theorem C2_batch_counterexample :
    (create_notion_page_submit apiLimit1 [Block.divider, Block.divider]).raised = true
    ∧ apiLimit1 [Block.divider] = true
    ∧ (create_notion_page_submit apiLimit1 [Block.divider, Block.divider]).calls
        = [[Block.divider, Block.divider], [Block.divider], [Block.divider]] := by
  refine ⟨rfl, rfl, rfl⟩

theorem map_language_lookup_hit (l dst : String)
    (h : language_map.lookup (String.mk (pyLower l.data)) = some dst) :
    map_language l = dst := by
  unfold map_language
  rw [h]
  rfl

theorem map_language_lookup_miss (l : String)
    (h : language_map.lookup (String.mk (pyLower l.data)) = none) :
    map_language l = "plain text" := by
  unfold map_language
  rw [h]
  rfl

/-- C8: code content is emitted as consecutive Code blocks of at most
2000 characters whose concatenation is the original content, in order,
with the language tag looked up case-insensitively in the fixed table
(destination identifier on a hit, plain text when absent or
unrecognised). -/
theorem C8_code_blocks (st : ConverterState) (code : String)
    (info : Option String) (l dst : String) :
    ((chunksOfFuel 2000 (code.data.length + 1) code.data).flatten = code.data)
    ∧ (∀ ch ∈ chunksOfFuel 2000 (code.data.length + 1) code.data, ch.length ≤ 2000)
    ∧ (let language :=
        match info with
        | none => "plain text"
        | some i => if i = "" then "plain text" else String.mk (pyStrip i.data)
       let newBlocks :=
        (chunksOfFuel 2000 (code.data.length + 1) code.data).map
          (fun ch => Block.code [plainRun (String.mk ch)] (map_language language))
       step st (.block_code code info) = some { st with blocks := st.blocks ++ newBlocks })
    ∧ (language_map.lookup (String.mk (pyLower l.data)) = some dst → map_language l = dst)
    ∧ (language_map.lookup (String.mk (pyLower l.data)) = none →
        map_language l = "plain text")
    ∧ (map_language "PY" = "python" ∧ map_language "Py" = "python"
        ∧ map_language "plain text" = "plain text"
        ∧ map_language "unknownlang" = "plain text") := by
  refine ⟨?_, ?_, rfl, map_language_lookup_hit l dst, map_language_lookup_miss l, by decide⟩
  · exact chunksOfFuel_flatten 2000 (by omega) (code.data.length + 1) code.data (by omega)
  · intro ch hc
    exact chunksOfFuel_le 2000 (code.data.length + 1) code.data ch hc

theorem C8_code_blocks_witness :
    language_map.lookup (String.mk (pyLower "PY".data)) = some "python"
    ∧ map_language "PY" = "python" := by
  exact ⟨by decide,
    (C8_code_blocks initState "x" none "PY" "python").2.2.2.1 (by decide)⟩

/-- C10: the current-list-type state starts unset, and a list-item
event arriving while it is unset emits a bulleted list item. -/
theorem C10_default_bullet (st : ConverterState) (text : String)
    (rich : List RichTextRun) :
    initState.current_list_type = none
    ∧ (st.current_list_type = none → parse_rich_text text = some rich →
        step st (.list_item text) = some { st with blocks := st.blocks ++
          [Block.listItem "bulleted_list_item" rich] })
    ∧ runEvents [MdEvent.list_item "hi"]
        = some { blocks := [Block.listItem "bulleted_list_item" [plainRun "hi"]],
                 current_list_type := none } := by
  refine ⟨rfl, ?_, by decide⟩
  intro h1 h2
  simp [step, h1, h2]

theorem C10_default_bullet_witness :
    step initState (.list_item "x") = some { initState with blocks :=
      [Block.listItem "bulleted_list_item" [plainRun "x"]] } := by
  have h := (C10_default_bullet initState "x" [plainRun "x"]).2.1 rfl (by decide)
  simpa using h

theorem take2000_length (s : List Char) : (take2000 s).length ≤ 2000 :=
  s.length_take_le 2000

theorem boundedRuns_append (r1 r2 : List RichTextRun)
    (h1 : boundedRuns r1) (h2 : boundedRuns r2) : boundedRuns (r1 ++ r2) := by
  intro r hr
  rcases List.mem_append.mp hr with h | h
  · exact h1 r h
  · exact h2 r h

theorem boundedRuns_flatten (rss : List (List RichTextRun))
    (h : ∀ rs ∈ rss, boundedRuns rs) : boundedRuns rss.flatten := by
  intro r hr
  rcases List.mem_flatten.mp hr with ⟨rs, hrs, hmem⟩
  exact h rs hrs r hmem

theorem flushPlain_bounded (acc : List Char) (runs : List RichTextRun)
    (h : boundedRuns runs) : boundedRuns (flushPlain acc runs) := by
  unfold flushPlain
  by_cases hacc : acc.isEmpty = true
  · rw [if_pos hacc]; exact h
  · rw [if_neg hacc]
    refine boundedRuns_append _ _ h ?_
    intro r hr
    rcases List.mem_singleton.mp hr with rfl
    exact take2000_length _

theorem spanScanFuel_bounded (lm : List (List Char × (List Char × List Char))) :
    ∀ (fuel : Nat) (acc : List Char) (runs : List RichTextRun) (s : List Char)
      (rs : List RichTextRun), boundedRuns runs →
      spanScanFuel lm fuel acc runs s = some rs → boundedRuns rs := by
  intro fuel
  induction fuel with
  | zero =>
    intro acc runs s rs h heq
    simp only [spanScanFuel, Option.some.injEq] at heq
    rw [← heq]
    exact flushPlain_bounded acc runs h
  | succ m ih =>
    intro acc runs s rs h heq
    cases s with
    | nil =>
      simp only [spanScanFuel, Option.some.injEq] at heq
      rw [← heq]
      exact flushPlain_bounded acc runs h
    | cons c rest =>
      simp only [spanScanFuel] at heq
      cases htok : spanTokAt (c :: rest) with
      | none =>
        rw [htok] at heq
        exact ih (c :: acc) runs rest rs h heq
      | some pr =>
        obtain ⟨tok, rest2⟩ := pr
        cases tok with
        | strike a =>
          simp only [htok] at heq
          refine ih [] _ rest2 rs ?_ heq
          refine boundedRuns_append _ _ (flushPlain_bounded acc runs h) ?_
          intro r hr
          rcases List.mem_singleton.mp hr with rfl
          exact take2000_length _
        | bold a =>
          simp only [htok] at heq
          refine ih [] _ rest2 rs ?_ heq
          refine boundedRuns_append _ _ (flushPlain_bounded acc runs h) ?_
          intro r hr
          rcases List.mem_singleton.mp hr with rfl
          exact take2000_length _
        | italic a =>
          simp only [htok] at heq
          refine ih [] _ rest2 rs ?_ heq
          refine boundedRuns_append _ _ (flushPlain_bounded acc runs h) ?_
          intro r hr
          rcases List.mem_singleton.mp hr with rfl
          exact take2000_length _
        | placeholder d =>
          simp only [htok] at heq
          cases hlk : lm.lookup d with
          | none => rw [hlk] at heq; exact absurd heq (by simp)
          | some v =>
            rw [hlk] at heq
            obtain ⟨lt, lu⟩ := v
            refine ih [] _ rest2 rs ?_ heq
            refine boundedRuns_append _ _ (flushPlain_bounded acc runs h) ?_
            intro r hr
            rcases List.mem_singleton.mp hr with rfl
            by_cases hv : is_valid_url (String.mk lu) = true
            · rw [if_pos hv]
              exact take2000_length _
            · rw [if_neg hv]
              exact take2000_length _

theorem partRuns_bounded (lm : List (List Char × (List Char × List Char)))
    (p : List Char) (rs : List RichTextRun) (h : partRuns lm p = some rs) :
    boundedRuns rs := by
  unfold partRuns at h
  by_cases hp : p.isEmpty = true
  · rw [if_pos hp] at h
    simp only [Option.some.injEq] at h
    rw [← h]
    intro r hr
    simp at hr
  · rw [if_neg hp] at h
    by_cases hcode : isCodePart p = true
    · rw [if_pos hcode] at h
      by_cases hct : ((p.drop 1).dropLast).isEmpty = true
      · rw [if_pos hct] at h
        simp only [Option.some.injEq] at h
        rw [← h]
        intro r hr
        simp at hr
      · rw [if_neg hct] at h
        simp only [Option.some.injEq] at h
        rw [← h]
        intro r hr
        rcases List.mem_singleton.mp hr with rfl
        exact take2000_length _
    · rw [if_neg hcode] at h
      exact spanScanFuel_bounded lm (p.length + 1) [] [] p rs (by intro r hr; simp at hr) h

theorem mapM_partRuns_bounded (lm : List (List Char × (List Char × List Char))) :
    ∀ (parts : List (List Char)) (rss : List (List RichTextRun)),
      parts.mapM (partRuns lm) = some rss → ∀ rs ∈ rss, boundedRuns rs := by
  intro parts
  induction parts with
  | nil =>
    intro rss h rs hrs
    simp only [List.mapM_nil, pure, Option.some.injEq] at h
    rw [← h] at hrs
    simp at hrs
  | cons p ps ih =>
    intro rss h rs hrs
    rw [List.mapM_cons] at h
    cases hp : partRuns lm p with
    | none => rw [hp] at h; simp [pure] at h
    | some rs0 =>
      rw [hp] at h
      cases hps : ps.mapM (partRuns lm) with
      | none => rw [hps] at h; simp [pure] at h
      | some rss0 =>
        rw [hps] at h
        simp at h
        rw [← h] at hrs
        rcases List.mem_cons.mp hrs with hh | hh
        · rw [hh]; exact partRuns_bounded lm p rs0 hp
        · exact ih rss0 hps rs hh

theorem parse_rich_text_bounded (text : String) (rs : List RichTextRun)
    (h : parse_rich_text text = some rs) : boundedRuns rs := by
  simp only [parse_rich_text] at h
  cases hm : (backtickSplitFuel
      ((linkSubFuel (text.data.length + 1) none 0 [] text.data).1.length + 1) []
      (linkSubFuel (text.data.length + 1) none 0 [] text.data).1).mapM
      (partRuns (linkSubFuel (text.data.length + 1) none 0 [] text.data).2) with
  | none => rw [hm] at h; exact absurd h (by simp)
  | some rss =>
    rw [hm] at h
    simp only [Option.some.injEq] at h
    rw [← h]
    by_cases hempty : rss.flatten.isEmpty = true
    · rw [if_pos hempty]
      intro r hr
      rcases List.mem_singleton.mp hr with rfl
      simp [plainRun]
    · rw [if_neg hempty]
      exact boundedRuns_flatten rss (mapM_partRuns_bounded _ _ rss hm)

theorem boundedBlocks_append (b1 b2 : List Block)
    (h1 : boundedBlocks b1) (h2 : boundedBlocks b2) : boundedBlocks (b1 ++ b2) := by
  intro b hb
  rcases List.mem_append.mp hb with h | h
  · exact h1 b h
  · exact h2 b h

theorem step_bounded (st st' : ConverterState) (e : MdEvent)
    (h : boundedBlocks st.blocks) (he : step st e = some st') :
    boundedBlocks st'.blocks := by
  cases e with
  | heading text level =>
    simp only [step] at he
    cases hht : heading_type level with
    | none => rw [hht] at he; exact absurd he (by simp)
    | some ht =>
      rw [hht] at he
      simp only [Option.some.injEq] at he
      rw [← he]
      refine boundedBlocks_append _ _ h ?_
      intro b hb
      rcases List.mem_singleton.mp hb with rfl
      intro r hr
      rcases List.mem_singleton.mp hr with rfl
      exact take2000_length _
  | paragraph text =>
    simp only [step] at he
    by_cases hs : (pyStrip text.data).isEmpty = true
    · rw [if_pos hs] at he
      simp only [Option.some.injEq] at he
      rw [← he]
      exact h
    · rw [if_neg hs] at he
      cases hp : parse_rich_text text with
      | none => rw [hp] at he; exact absurd he (by simp)
      | some rich =>
        rw [hp] at he
        simp only [Option.some.injEq] at he
        rw [← he]
        refine boundedBlocks_append _ _ h ?_
        intro b hb
        rcases List.mem_singleton.mp hb with rfl
        exact parse_rich_text_bounded text rich hp
  | block_code code info =>
    simp only [step, Option.some.injEq] at he
    rw [← he]
    refine boundedBlocks_append _ _ h ?_
    intro b hb
    rcases List.mem_map.mp hb with ⟨ch, hch, rfl⟩
    intro r hr
    rcases List.mem_singleton.mp hr with rfl
    exact chunksOfFuel_le 2000 (code.data.length + 1) code.data ch hch
  | block_quote text =>
    simp only [step, Option.some.injEq] at he
    rw [← he]
    refine boundedBlocks_append _ _ h ?_
    intro b hb
    rcases List.mem_singleton.mp hb with rfl
    intro r hr
    rcases List.mem_singleton.mp hr with rfl
    exact take2000_length _
  | list ordered =>
    simp only [step, Option.some.injEq] at he
    rw [← he]
    exact h
  | list_item text =>
    simp only [step] at he
    cases hp : parse_rich_text text with
    | none => rw [hp] at he; exact absurd he (by simp)
    | some rich =>
      rw [hp] at he
      simp only [Option.some.injEq] at he
      rw [← he]
      refine boundedBlocks_append _ _ h ?_
      intro b hb
      rcases List.mem_singleton.mp hb with rfl
      exact parse_rich_text_bounded text rich hp
  | image text url =>
    simp only [step] at he
    by_cases hs : (pyStrip url.data).isEmpty = true
    · rw [if_pos hs] at he
      simp only [Option.some.injEq] at he
      rw [← he]
      exact h
    · rw [if_neg hs] at he
      simp only [Option.some.injEq] at he
      rw [← he]
      refine boundedBlocks_append _ _ h ?_
      intro b hb
      rcases List.mem_singleton.mp hb with rfl
      intro r hr
      by_cases ht : text = ""
      · rw [if_pos ht] at hr
        exact absurd hr (List.not_mem_nil r)
      · rw [if_neg ht] at hr
        rcases List.mem_singleton.mp hr with rfl
        exact take2000_length _
  | thematic_break =>
    simp only [step, Option.some.injEq] at he
    rw [← he]
    refine boundedBlocks_append _ _ h ?_
    intro b hb
    rcases List.mem_singleton.mp hb with rfl
    intro r hr
    exact absurd hr (List.not_mem_nil r)

theorem runEvents_bounded_aux :
    ∀ (events : List MdEvent) (st0 st : ConverterState),
      boundedBlocks st0.blocks → List.foldlM step st0 events = some st →
      boundedBlocks st.blocks := by
  intro events
  induction events with
  | nil =>
    intro st0 st h heq
    simp only [List.foldlM_nil, pure, Option.some.injEq] at heq
    rw [← heq]
    exact h
  | cons e es ih =>
    intro st0 st h heq
    rw [List.foldlM_cons] at heq
    cases hstep : step st0 e with
    | none => rw [hstep] at heq; simp at heq
    | some st1 =>
      rw [hstep] at heq
      exact ih st1 st (step_bounded st0 st1 e h hstep) heq

/-- C9: every rich-text run in every block produced by the converter
from any event sequence — headings, paragraphs, code chunks, quotes,
list items and image captions alike — has content of at most 2000
characters. -/
theorem C9_run_length_invariant (events : List MdEvent) (st : ConverterState)
    (h : runEvents events = some st) :
    ∀ b ∈ st.blocks, ∀ r ∈ blockRich b, r.content.length ≤ 2000 := by
  exact runEvents_bounded_aux events initState st
    (by intro b hb; exact absurd hb (List.not_mem_nil b)) h

theorem C9_run_length_invariant_witness :
    runEvents [.heading "Title" 1, .paragraph "**b** x",
        .block_code "print" (some "py"), .list_item "i",
        .image "cap" "http://u", .thematic_break]
      = some (({ blocks :=
          [Block.heading "heading_1" [plainRun "Title"],
           Block.paragraph [({ content := "b", bold := true } : RichTextRun), plainRun " x"],
           Block.code [plainRun "print"] "python",
           Block.listItem "bulleted_list_item" [plainRun "i"],
           Block.image "http://u" [plainRun "cap"],
           Block.divider], current_list_type := none } : ConverterState))
    ∧ (∀ b ∈ ([Block.heading "heading_1" [plainRun "Title"],
           Block.paragraph [({ content := "b", bold := true } : RichTextRun), plainRun " x"],
           Block.code [plainRun "print"] "python",
           Block.listItem "bulleted_list_item" [plainRun "i"],
           Block.image "http://u" [plainRun "cap"],
           Block.divider] : List Block), ∀ r ∈ blockRich b, r.content.length ≤ 2000) := by
  have h1 : runEvents [.heading "Title" 1, .paragraph "**b** x",
      .block_code "print" (some "py"), .list_item "i",
      .image "cap" "http://u", .thematic_break]
    = some (({ blocks :=
        [Block.heading "heading_1" [plainRun "Title"],
         Block.paragraph [({ content := "b", bold := true } : RichTextRun), plainRun " x"],
         Block.code [plainRun "print"] "python",
         Block.listItem "bulleted_list_item" [plainRun "i"],
         Block.image "http://u" [plainRun "cap"],
         Block.divider], current_list_type := none } : ConverterState)) := by decide
  exact ⟨h1, C9_run_length_invariant _ _ h1⟩

/-- C3 counterexample: a heading whose raw text carries emphasis markup
keeps it as one plain run, while the formatter would emit an annotated
run — heading text does not go through the inline formatter. -/
theorem C3_heading_counterexample :
    step initState (.heading "*x*" 1)
      = some { blocks := [Block.heading "heading_1" [plainRun "*x*"]],
               current_list_type := none }
    ∧ parse_rich_text "*x*" = some [{ content := "x", italic := true }]
    ∧ ¬ ([plainRun "*x*"]
          = [({ content := "x", italic := true } : RichTextRun)]) := by
  refine ⟨by decide, by decide, by decide⟩

/-- C3 (amended): paragraphs and list items delegate their text to the
inline formatter, while headings and quotes emit a single plain run of
the raw text truncated to 2000 characters. -/
theorem C3_formatter_delegation (st : ConverterState) (text : String)
    (rich : List RichTextRun) :
    (¬ (pyStrip text.data).isEmpty = true → parse_rich_text text = some rich →
      step st (.paragraph text)
        = some { st with blocks := st.blocks ++ [Block.paragraph rich] })
    ∧ (parse_rich_text text = some rich →
      step st (.list_item text) = some { st with blocks := st.blocks ++
        [Block.listItem (st.current_list_type.getD "bulleted_list_item") rich] })
    ∧ (step st (.heading text 2) = some { st with blocks := st.blocks ++
        [Block.heading "heading_2" [plainRun (take2000 text.data)]] })
    ∧ (step st (.block_quote text) = some { st with blocks := st.blocks ++
        [Block.quote [plainRun (take2000 text.data)]] }) := by
  refine ⟨?_, ?_, rfl, rfl⟩
  · intro h1 h2
    simp [step, h1, h2]
  · intro h2
    simp [step, h2]

theorem C3_formatter_delegation_witness :
    step initState (.paragraph "hello")
      = some { initState with blocks := [Block.paragraph [plainRun "hello"]] } := by
  have h := (C3_formatter_delegation initState "hello" [plainRun "hello"]).1
    (by decide) (by decide)
  simpa using h

theorem linkSubFuel_nil (fuel : Nat) (prev : Option Char) (counter : Nat)
    (m : List (List Char × (List Char × List Char))) :
    linkSubFuel fuel prev counter m [] = ([], m) := by
  cases fuel <;> rfl

theorem scanLinkDisplay_eq (d rest : List Char) (hd1 : ¬ d = [])
    (hd2 : ']' ∉ d) :
    scanLinkDisplay (d ++ ']' :: '(' :: rest) = some (d, rest) := by
  unfold scanLinkDisplay
  rw [takeWhile_append_cons _ d ']' ('(' :: rest) (mem_all_ne ']' d hd2) (by simp)]
  rw [dropWhile_append_cons _ d ']' ('(' :: rest) (mem_all_ne ']' d hd2) (by simp)]
  simp [hd1]

theorem scanLinkTarget_single (t : List Char) (ht1 : ¬ t = []) (ht2 : ')' ∉ t) :
    scanLinkTarget (t ++ [')']) = some (t, []) := by
  unfold scanLinkTarget
  rw [takeWhile_append_cons _ t ')' [] (mem_all_ne ')' t ht2) (by simp)]
  rw [dropWhile_append_cons _ t ')' [] (mem_all_ne ')' t ht2) (by simp)]
  simp [ht1]

theorem linkSubFuel_single (d t : List Char) (hd1 : ¬ d = []) (hd2 : ']' ∉ d)
    (ht1 : ¬ t = []) (ht2 : ')' ∉ t) :
    linkSubFuel ((linkLiteral d t).length + 1) none 0 [] (linkLiteral d t)
      = (placeholderChars 0, [(natDecimal 0, (d, t))]) := by
  have hbody : linkLiteral d t = '[' :: (d ++ ']' :: '(' :: (t ++ [')'])) := rfl
  rw [hbody]
  generalize ('[' :: (d ++ ']' :: '(' :: (t ++ [')']))).length = F
  simp only [linkSubFuel]
  simp only [scanLinkDisplay_eq d (t ++ [')']) hd1 hd2,
    scanLinkTarget_single t ht1 ht2, linkSubFuel_nil]
  simp

theorem spanScanFuel_nil_any (lm : List (List Char × (List Char × List Char)))
    (fuel : Nat) (acc : List Char) (runs : List RichTextRun) :
    spanScanFuel lm fuel acc runs [] = some (flushPlain acc runs) := by
  cases fuel <;> rfl

theorem spanScanFuel_placeholder0 (d t : List Char) :
    spanScanFuel [(natDecimal 0, (d, t))] ((placeholderChars 0).length + 1) [] []
      (placeholderChars 0)
      = some [if is_valid_url (String.mk t) = true then
          ({ content := take2000 d, link := some (String.mk t) } : RichTextRun)
        else plainRun (take2000 (linkLiteral d t))] := by
  have hph : placeholderChars 0 = ['_', '_', 'L', 'I', 'N', 'K', '_', '0', '_', '_'] := rfl
  rw [hph]
  have htok : spanTokAt ['_', '_', 'L', 'I', 'N', 'K', '_', '0', '_', '_']
      = some (SpanTok.placeholder ['0'], []) := rfl
  have hlk : List.lookup ['0'] [(natDecimal 0, (d, t))] = some (d, t) := rfl
  simp only [spanScanFuel, htok, hlk, spanScanFuel_nil_any]
  simp [flushPlain, linkLiteral]

theorem partRuns_placeholder0 (d t : List Char) :
    partRuns [(natDecimal 0, (d, t))] (placeholderChars 0)
      = some [if is_valid_url (String.mk t) = true then
          ({ content := take2000 d, link := some (String.mk t) } : RichTextRun)
        else plainRun (take2000 (linkLiteral d t))] := by
  unfold partRuns
  rw [if_neg (by decide), if_neg (by decide)]
  exact spanScanFuel_placeholder0 d t

theorem parse_rich_text_single_link (d t : List Char) (hd1 : ¬ d = [])
    (hd2 : ']' ∉ d) (ht1 : ¬ t = []) (ht2 : ')' ∉ t) :
    parse_rich_text (String.mk (linkLiteral d t))
      = some [if is_valid_url (String.mk t) = true then
          ({ content := take2000 d, link := some (String.mk t) } : RichTextRun)
        else plainRun (take2000 (linkLiteral d t))] := by
  have hdata : (String.mk (linkLiteral d t)).data = linkLiteral d t := rfl
  simp only [parse_rich_text, hdata]
  rw [linkSubFuel_single d t hd1 hd2 ht1 ht2]
  have hparts : backtickSplitFuel ((placeholderChars 0).length + 1) []
      (placeholderChars 0) = [placeholderChars 0] := by decide
  simp only [hparts, List.mapM_cons, List.mapM_nil, partRuns_placeholder0 d t]
  simp

/-- C4: the formatter extracts links into opaque placeholders before
emphasis scanning, so markup characters inside a target produce no
emphasis runs — the concrete probe yields a single link run — a valid
single-link line yields exactly the one link run, and a link whose
target is not an absolute http or https URL degrades to one plain run
holding the literal bracket syntax, never dropped. -/
theorem C4_link_extraction (d t : List Char) (hd1 : ¬ d = []) (hd2 : ']' ∉ d)
    (ht1 : ¬ t = []) (ht2 : ')' ∉ t)
    (hlen : (linkLiteral d t).length ≤ 2000) :
    (parse_rich_text "[a](http://x/*y*)"
      = some [{ content := "a", link := some "http://x/*y*" }])
    ∧ (is_valid_url (String.mk t) = true →
        parse_rich_text (String.mk (linkLiteral d t))
          = some [{ content := take2000 d, link := some (String.mk t) }])
    ∧ (is_valid_url (String.mk t) = false →
        parse_rich_text (String.mk (linkLiteral d t))
          = some [plainRun (String.mk (linkLiteral d t))]) := by
  refine ⟨by decide, ?_, ?_⟩
  · intro hv
    rw [parse_rich_text_single_link d t hd1 hd2 ht1 ht2, if_pos hv]
  · intro hv
    rw [parse_rich_text_single_link d t hd1 hd2 ht1 ht2, if_neg (by simp [hv])]
    rw [take2000, List.take_of_length_le hlen]

theorem C4_link_extraction_witness :
    parse_rich_text (String.mk (linkLiteral "a".data "notes.md".data))
      = some [plainRun (String.mk (linkLiteral "a".data "notes.md".data))] :=
  (C4_link_extraction "a".data "notes.md".data (by decide) (by decide)
    (by decide) (by decide) (by decide)).2.2 (by decide)

theorem findSome_eq_map_find (folders : List String) (g : String → String)
    (fs : FS) :
    folders.findSome? (fun folder =>
        if (fs.file (g folder)).isSome then some (g folder) else none)
      = (folders.map g).find? (fun p => (fs.file p).isSome) := by
  induction folders with
  | nil => rfl
  | cons f fsl ih =>
    by_cases h : (fs.file (g f)).isSome
    · simp [List.findSome?_cons, List.find?_cons_of_pos, h]
    · simp only [List.map_cons]
      rw [List.find?_cons_of_neg _ (by simp [h])]
      simp [List.findSome?_cons, h, ih]

/-- C6: the resolver tries its strategies in a fixed order with first
success winning — absolute URLs pass through, the decoded trimmed
reference must be nonempty, then the markdown-relative candidate; in
single-folder mode the basename is tried inside the conventional
attachment subfolders in their listed order and then located by the
recursive search, while vault mode tries the vault-relative candidate;
when nothing succeeds the result is null. -/
theorem C6_path_resolution (fs : FS) (f md vault : String) :
    (is_url f = true → resolve_relative_path fs f md vault = some f)
    ∧ (is_url f = false → String.mk (pyStrip (percentDecode f.data)) = "" →
        resolve_relative_path fs f md vault = none)
    ∧ (∀ fp : String, fp = String.mk (pyStrip (percentDecode f.data)) →
        is_url f = false → ¬ fp = "" →
        (fs.file (pyJoin (dirname md) fp)).isSome = true →
        resolve_relative_path fs f md vault = some (pyJoin (dirname md) fp))
    ∧ (∀ fp : String, fp = String.mk (pyStrip (percentDecode f.data)) →
        is_url f = false → ¬ fp = "" →
        (fs.file (pyJoin (dirname md) fp)).isSome = false →
        dirname md = vault →
        resolve_relative_path fs f md vault
          = (match (folderCandidates vault fp).find?
                (fun p => (fs.file p).isSome) with
             | some p => some p
             | none => (fs.rglob vault (basename fp)).find?
                 (fun p => (fs.file p).isSome)))
    ∧ (∀ fp : String, fp = String.mk (pyStrip (percentDecode f.data)) →
        is_url f = false → ¬ fp = "" →
        (fs.file (pyJoin (dirname md) fp)).isSome = false →
        ¬ dirname md = vault →
        resolve_relative_path fs f md vault
          = (if (fs.file (pyJoin vault fp)).isSome then some (pyJoin vault fp)
             else none)) := by
  refine ⟨?_, ?_, ?_, ?_, ?_⟩
  · intro h
    simp [resolve_relative_path, h]
  · intro h hfp
    simp [resolve_relative_path, h, hfp]
  · intro fp hfp h h1 h2
    subst hfp
    simp [resolve_relative_path, h, h1, h2]
  · intro fp hfp h h1 h2 hmd
    subst hfp
    rw [hmd] at h2
    simp only [resolve_relative_path]
    rw [hmd]
    rw [if_neg (by simp [h]), if_neg h1, if_neg (by simp [h2]), if_pos rfl]
    rw [findSome_eq_map_find attachment_folders
      (fun folder => pyJoin (pyJoin vault folder)
        (basename (String.mk (pyStrip (percentDecode f.data))))) fs]
    simp [folderCandidates]
  · intro fp hfp h h1 h2 hmd
    subst hfp
    simp [resolve_relative_path, h, h1, h2, hmd]

theorem C6_path_resolution_witness :
    resolve_relative_path fsAttach "pic.png" "/v/note.md" "/v"
      = some "/v/attachments/pic.png"
    ∧ (folderCandidates "/v" "pic.png").find?
        (fun p => (fsAttach.file p).isSome) = some "/v/attachments/pic.png" := by
  have h := (C6_path_resolution fsAttach "pic.png" "/v/note.md" "/v").2.2.2.1
    "pic.png" (by decide) (by decide) (by decide) (by decide) (by decide)
  refine ⟨?_, by decide⟩
  rw [h]
  decide

theorem lookup_append_of_none {α β : Type} [BEq α] (l1 l2 : List (α × β))
    (k : α) (h : l1.lookup k = none) : (l1 ++ l2).lookup k = l2.lookup k := by
  induction l1 with
  | nil => rfl
  | cons kv l1t ih =>
    obtain ⟨k1, v1⟩ := kv
    by_cases hk : (k == k1) = true
    · simp [List.lookup, hk] at h
    · simp [List.lookup, hk] at h ⊢
      exact ih h

theorem upload_miss_success_calls (md5hex : Nat → String)
    (provider : String → String → Option String) (fs : FS)
    (st : UploaderState) (p u1 : String) (c : Nat) (url : String)
    (hfile : fs.file p = some c)
    (hmiss : st.cache.lookup (get_cache_key md5hex fs p) = none)
    (hprov : provider p u1 = some url) :
    (FileUploader.upload md5hex provider fs st p u1).2 = some url
    ∧ (FileUploader.upload md5hex provider fs st p u1).1.cache
        = st.cache ++ [(get_cache_key md5hex fs p, url)]
    ∧ (FileUploader.upload md5hex provider fs st p u1).1.providerCalls
        = st.providerCalls ++ [(p, u1)] := by
  simp only [FileUploader.upload]
  rw [hmiss, hprov]
  refine ⟨by simp [hfile], ?_, ?_⟩ <;>
    · simp only [hfile, Option.isSome_some, Option.isNone_some, Bool.true_or]
      rw [if_neg (by simp), if_neg (by simp)]
      split
      · rfl
      · split <;> rfl

/-- C1 (amended): the cache key pairs the file path with the content
digest, so a second upload of the same unchanged path is a cache hit —
the provider is invoked once across the two calls and both return the
same URL; deduplication does not extend across distinct paths with
identical bytes. -/
theorem C1_upload_cache (md5hex : Nat → String)
    (provider : String → String → Option String) (fs : FS)
    (st : UploaderState) (p u1 u2 : String) (c : Nat) (url : String)
    (hfile : fs.file p = some c)
    (hmiss : st.cache.lookup (get_cache_key md5hex fs p) = none)
    (hprov : provider p u1 = some url) :
    (FileUploader.upload md5hex provider fs st p u1).2 = some url
    ∧ (FileUploader.upload md5hex provider fs
        (FileUploader.upload md5hex provider fs st p u1).1 p u2).2 = some url
    ∧ (FileUploader.upload md5hex provider fs
        (FileUploader.upload md5hex provider fs st p u1).1 p u2).1.providerCalls
        = st.providerCalls ++ [(p, u1)] := by
  obtain ⟨h1, hcache, hcalls⟩ :=
    upload_miss_success_calls md5hex provider fs st p u1 c url hfile hmiss hprov
  have hkey : (FileUploader.upload md5hex provider fs st p u1).1.cache.lookup
      (get_cache_key md5hex fs p) = some url := by
    rw [hcache, lookup_append_of_none _ _ _ hmiss]
    simp [List.lookup]
  have h2 : ∀ st1 : UploaderState,
      st1.cache.lookup (get_cache_key md5hex fs p) = some url →
      FileUploader.upload md5hex provider fs st1 p u2 = (st1, some url) := by
    intro st1 hk
    simp only [FileUploader.upload]
    rw [hk]
    simp [hfile]
  refine ⟨h1, ?_, ?_⟩
  · rw [h2 _ hkey]
  · rw [h2 _ hkey]
    exact hcalls

/-- C1 counterexample: two distinct regular files with byte-identical
content produce two provider invocations and two different URLs — the
second call is not a cache hit, because the cache key includes the file
path. -/
theorem C1_upload_counterexample :
    fsTwin.file "/v/a.png" = fsTwin.file "/v/b.png"
    ∧ ¬ ("/v/a.png" : String) = "/v/b.png"
    ∧ (FileUploader.upload md5hexModel providerByPath fsTwin
        (FileUploader.upload md5hexModel providerByPath fsTwin initUploader
          "/v/a.png" "root").1 "/v/b.png" "root").1.providerCalls
      = [("/v/a.png", "root"), ("/v/b.png", "root")]
    ∧ (FileUploader.upload md5hexModel providerByPath fsTwin initUploader
        "/v/a.png" "root").2 = some "u_/v/a.png"
    ∧ (FileUploader.upload md5hexModel providerByPath fsTwin
        (FileUploader.upload md5hexModel providerByPath fsTwin initUploader
          "/v/a.png" "root").1 "/v/b.png" "root").2 = some "u_/v/b.png" := by
  refine ⟨rfl, by decide, rfl, rfl, rfl⟩

theorem C1_upload_cache_witness :
    (FileUploader.upload md5hexModel providerByPath fsTwin initUploader
      "/v/a.png" "root").2 = some "u_/v/a.png"
    ∧ (FileUploader.upload md5hexModel providerByPath fsTwin
        (FileUploader.upload md5hexModel providerByPath fsTwin initUploader
          "/v/a.png" "root").1 "/v/a.png" "again").2 = some "u_/v/a.png"
    ∧ (FileUploader.upload md5hexModel providerByPath fsTwin
        (FileUploader.upload md5hexModel providerByPath fsTwin initUploader
          "/v/a.png" "root").1 "/v/a.png" "again").1.providerCalls
      = [("/v/a.png", "root")] := by
  have h := C1_upload_cache md5hexModel providerByPath fsTwin initUploader
    "/v/a.png" "root" "again" 7 "u_/v/a.png" (by decide) (by decide) (by decide)
  exact ⟨h.1, h.2.1, h.2.2⟩

/-- C7 (amended): the pre-parse rewrite leaves absolute-URL targets
as-is, serves repeated sources from the per-document cache, rewrites a
match to the hosted URL exactly when resolution and upload succeed
(recording the source in the cache), leaves the original target on any
resolution or upload failure — so a failing source is retried on each
occurrence, the cache holding only successful rewrites — and never
removes the image syntax. -/
theorem C7_image_rewrite (md5hex : Nat → String) (pathHash : String → String)
    (provider : String → String → Option String) (fs : FS)
    (mdp vault : String) (rs : RewriteState) (alt src : List Char)
    (url : String) (fp : String) (ust : UploaderState) (u : String) :
    (is_url (String.mk src) = true →
      upload_and_replace_image md5hex pathHash provider fs mdp vault true rs alt src
        = ('!' :: '[' :: (alt ++ ']' :: '(' :: (src ++ [')'])), rs))
    ∧ (is_url (String.mk src) = false →
        rs.uploaded_images.lookup (String.mk src) = some url →
        upload_and_replace_image md5hex pathHash provider fs mdp vault true rs alt src
          = ('!' :: '[' :: (alt ++ ']' :: '(' :: (url.data ++ [')'])), rs))
    ∧ (is_url (String.mk src) = false →
        rs.uploaded_images.lookup (String.mk src) = none →
        resolve_relative_path fs (String.mk (percentDecode src)) mdp vault = some fp →
        (fs.file fp).isSome = true →
        FileUploader.upload md5hex provider fs rs.uploader fp
            (get_unique_path_for_file pathHash fp vault) = (ust, some u) →
        upload_and_replace_image md5hex pathHash provider fs mdp vault true rs alt src
          = ('!' :: '[' :: (alt ++ ']' :: '(' :: (u.data ++ [')'])),
             { uploaded_images := rs.uploaded_images ++ [(String.mk src, u)],
               uploader := ust }))
    ∧ (is_url (String.mk src) = false →
        rs.uploaded_images.lookup (String.mk src) = none →
        resolve_relative_path fs (String.mk (percentDecode src)) mdp vault = some fp →
        (fs.file fp).isSome = true →
        FileUploader.upload md5hex provider fs rs.uploader fp
            (get_unique_path_for_file pathHash fp vault) = (ust, none) →
        upload_and_replace_image md5hex pathHash provider fs mdp vault true rs alt src
          = ('!' :: '[' :: (alt ++ ']' :: '(' :: (src ++ [')'])),
             { rs with uploader := ust }))
    ∧ (is_url (String.mk src) = false →
        rs.uploaded_images.lookup (String.mk src) = none →
        resolve_relative_path fs (String.mk (percentDecode src)) mdp vault = none →
        upload_and_replace_image md5hex pathHash provider fs mdp vault true rs alt src
          = ('!' :: '[' :: (alt ++ ']' :: '(' :: (src ++ [')'])), rs))
    ∧ (∃ target : List Char,
        (upload_and_replace_image md5hex pathHash provider fs mdp vault true rs alt src).1
          = '!' :: '[' :: (alt ++ ']' :: '(' :: (target ++ [')']))) := by
  refine ⟨?_, ?_, ?_, ?_, ?_, ?_⟩
  · intro h
    simp [upload_and_replace_image, h]
  · intro h hlk
    simp [upload_and_replace_image, h, hlk]
  · intro h hlk hres hfile hup
    simp [upload_and_replace_image, h, hlk, hres, hfile, hup]
  · intro h hlk hres hfile hup
    simp [upload_and_replace_image, h, hlk, hres, hfile, hup]
  · intro h hlk hres
    simp [upload_and_replace_image, h, hlk, hres]
  · simp only [upload_and_replace_image]
    repeat' split
    all_goals exact ⟨_, rfl⟩

/-- C7 counterexample: a document referencing the same resolvable image
twice under an always-failing provider triggers two resolution and
upload attempts for that single distinct source — the per-document
cache records only successful rewrites, so failures are retried per
occurrence rather than at most once per distinct source. -/
theorem C7_image_cache_counterexample :
    (rewrite_images md5hexModel pathHashModel providerFail fsFlat "/v/n.md" "/v"
        true initUploader "![](a.png) ![](a.png)").1 = "![](a.png) ![](a.png)"
    ∧ (rewrite_images md5hexModel pathHashModel providerFail fsFlat "/v/n.md" "/v"
        true initUploader "![](a.png) ![](a.png)").2.uploaded_images = []
    ∧ (rewrite_images md5hexModel pathHashModel providerFail fsFlat "/v/n.md" "/v"
        true initUploader "![](a.png) ![](a.png)").2.uploader.providerCalls
      = [("/v/a.png", "root"), ("/v/a.png", "root")] := by
  refine ⟨by decide, by decide, by decide⟩

theorem C7_image_rewrite_witness :
    upload_and_replace_image md5hexModel pathHashModel providerFail fsFlat
      "/v/n.md" "/v" true { uploaded_images := [], uploader := initUploader }
      [] "http://h/i.png".data
    = ('!' :: '[' :: ([] ++ ']' :: '(' :: ("http://h/i.png".data ++ [')'])),
       { uploaded_images := [], uploader := initUploader }) := by
  exact (C7_image_rewrite md5hexModel pathHashModel providerFail fsFlat
    "/v/n.md" "/v" { uploaded_images := [], uploader := initUploader }
    [] "http://h/i.png".data "" "" initUploader "").1 (by decide)

end ObsidianToNotion
